import Mathlib

/-!
Verification of the Text_Editor repository's core logic: the ruler
coordinate/drag model (EditorRuler) and the find/replace match scanner
(FindReplaceDialog), embedded shallowly over exact rational arithmetic
(ℚ in place of JS doubles) and `List Char` in place of JS strings.
-/

namespace TextEditor

/-! ## Ruler coordinate model (EditorRuler: part_000)

All lengths in inches, positions in pixels, `zoom` a percentage.
JS `Math.round` rounds half toward +∞, i.e. `⌊x + 1/2⌋`.
-/

/-- `inchesToPx`: source `(inches) => inches * 96 * (zoom / 100)`. -/
def inchesToPx (inches zoom : ℚ) : ℚ := inches * 96 * (zoom / 100)

/-- `pxToInches`: source `(px) => px / 96 / (zoom / 100)`. -/
def pxToInches (px zoom : ℚ) : ℚ := px / 96 / (zoom / 100)

/-- JS `Math.round`: round half toward positive infinity. -/
def jsRound (x : ℚ) : ℤ := ⌊x + 1/2⌋

/-- Source idiom `Math.round(v * 4) / 4`: snap to the nearest 0.25in. -/
def snapQuarter (x : ℚ) : ℚ := (jsRound (x * 4) : ℚ) / 4

/-- `handleTabStopAdd` (TextEditor component, part_004):
`setTabStops(prev => [...prev, position].sort((a, b) => a - b))`. -/
def handleTabStopAdd (prev : List ℚ) (position : ℚ) : List ℚ :=
  List.insertionSort (fun a b => a ≤ b) (prev ++ [position])

/-- JS `Math.abs`. -/
def jsAbs (x : ℚ) : ℚ := if x < 0 then -x else x

/-- `handleTabStopRemove` (part_004):
`setTabStops(prev => prev.filter(t => Math.abs(t - position) > 0.05))`. -/
def handleTabStopRemove (prev : List ℚ) (position : ℚ) : List ℚ :=
  prev.filter (fun t => 1/20 < jsAbs (t - position))

/-- `x` is an integer multiple of a quarter inch (the 0.25in snap grid). -/
def isQuarterMultiple (x : ℚ) : Prop := ∃ k : ℤ, x = (k : ℚ) / 4

/-- `handleRulerClick` (part_000): ignores the click while dragging;
otherwise converts the click x to inches relative to the left margin and,
if strictly inside the content band, adds the 0.25in-snapped tab stop. -/
def handleRulerClick (dragging : Bool) (pageWidth leftMargin rightMargin zoom : ℚ)
    (tabStops : List ℚ) (clickX : ℚ) : List ℚ :=
  if dragging then tabStops
  else
    let posInches := pxToInches clickX zoom - leftMargin
    if 0 < posInches ∧ posInches < pageWidth - leftMargin - rightMargin then
      handleTabStopAdd tabStops (snapQuarter posInches)
    else tabStops

/-- `handleTabDoubleClick` (part_000): `onTabStopRemove(tabStops[index])`,
composed with `handleTabStopRemove` from part_004. -/
def handleTabDoubleClick (tabStops : List ℚ) (index : Nat) : List ℚ :=
  handleTabStopRemove tabStops (tabStops.getD index 0)

/-- `handleMouseMove`, `dragging === 'left'` branch (part_000):
`newLeft = Math.max(0.25, Math.min(pageWidth - rightMargin - 1, posInches))`,
then `onMarginChange(Math.round(newLeft * 4) / 4, rightMargin)`.
Returns the (left, right) margins passed to `onMarginChange`. -/
def handleMouseMoveLeft (pageWidth leftMargin rightMargin zoom mouseX : ℚ) : ℚ × ℚ :=
  let posInches := pxToInches mouseX zoom
  let newLeft := max (1/4) (min (pageWidth - rightMargin - 1) posInches)
  (snapQuarter newLeft, rightMargin)

/-- `handleMouseMove`, `dragging === 'right'` branch (part_000):
`newRight = Math.max(0.25, Math.min(pageWidth - leftMargin - 1, pageWidth - posInches))`,
then `onMarginChange(leftMargin, Math.round(newRight * 4) / 4)`. -/
def handleMouseMoveRight (pageWidth leftMargin rightMargin zoom mouseX : ℚ) : ℚ × ℚ :=
  let posInches := pxToInches mouseX zoom
  let newRight := max (1/4) (min (pageWidth - leftMargin - 1) (pageWidth - posInches))
  (leftMargin, snapQuarter newRight)

/-- `handleMouseMove`, `dragging === 'tab'` branch (part_000): in-band moves
remove the dragged stop's old value then add the snapped new position
(each via the part_004 handlers); out-of-band moves are no-ops. -/
def handleMouseMoveTab (pageWidth leftMargin rightMargin zoom : ℚ)
    (tabStops : List ℚ) (dragTabIndex : Nat) (mouseX : ℚ) : List ℚ :=
  let posInches := pxToInches mouseX zoom
  let newPos := posInches - leftMargin
  if 0 < newPos ∧ newPos < pageWidth - leftMargin - rightMargin then
    handleTabStopAdd (handleTabStopRemove tabStops (tabStops.getD dragTabIndex 0))
      (snapQuarter newPos)
  else tabStops

/-! ## Find/replace match scanner (FindReplaceDialog: part_006)

Document text is `List Char`; a document is a list of text nodes, each a
`(position, text)` pair as delivered by `doc.descendants`.  The search term
is matched literally (the source escapes every regex metacharacter), with
the `i` flag modelled as lower-casing both sides.  The `g`-flag `exec` loop
advances `lastIndex` past each match, so a new match may not begin inside a
previous one: `findAux` carries a `skip` counter of positions still covered
by the last emitted match.
-/

/-- One entry of the source's `SearchResult` interface (`from`/`to`
document offsets; `from` is a Lean keyword, hence `from_`). -/
structure SearchResult where
  from_ : Nat
  to_ : Nat
deriving DecidableEq, Repr

/-- Case normalisation for the regex `i` flag: identity when
`caseSensitive`, lower-casing otherwise. -/
def charNorm (caseSensitive : Bool) (c : Char) : Char :=
  if caseSensitive then c else c.toLower

/-- Does the (normalised) pattern occur at the head of the text? -/
def matchesAt (caseSensitive : Bool) (pat text : List Char) : Bool :=
  (pat.map (charNorm caseSensitive)).isPrefixOf (text.map (charNorm caseSensitive))

/-- Shift a match span by `k` positions. -/
def shiftSpan (k : Nat) (m : SearchResult) : SearchResult :=
  ⟨m.from_ + k, m.to_ + k⟩

/-- The `while ((match = searchRegex.exec(node.text)) !== null)` loop of
`findMatches` on one text node: all literal matches of `pat`, left to
right, non-overlapping (a `g`-flag regex resumes at `lastIndex`, i.e. just
past the previous match; `skip` counts positions still inside it). -/
def findAux (caseSensitive : Bool) (pat : List Char) : List Char → Nat → List SearchResult
  | [], _ => []
  | _ :: tl, skip + 1 => (findAux caseSensitive pat tl skip).map (shiftSpan 1)
  | c :: tl, 0 =>
    if matchesAt caseSensitive pat (c :: tl) then
      ⟨0, pat.length⟩ :: (findAux caseSensitive pat tl (pat.length - 1)).map (shiftSpan 1)
    else
      (findAux caseSensitive pat tl 0).map (shiftSpan 1)

/-- `findMatches` restricted to a single text node starting at offset 0.
The `if (!editor || !searchTerm)` guard makes an empty pattern yield no
matches. -/
def findMatchesNode (caseSensitive : Bool) (text pat : List Char) : List SearchResult :=
  if pat.isEmpty then [] else findAux caseSensitive pat text 0

/-- `findMatches` over a whole document: `doc.descendants((node, pos) => ...)`
scans each text node's own text and offsets the spans by the node's
position, in document order. -/
def docFindMatches (caseSensitive : Bool) (nodes : List (Nat × List Char))
    (pat : List Char) : List SearchResult :=
  if pat.isEmpty then []
  else (nodes.map (fun n => (findAux caseSensitive pat n.2 0).map (shiftSpan n.1))).flatten

/-- The span `m` lies entirely within a single text node of `nodes`. -/
def spanInSomeNode (nodes : List (Nat × List Char)) (m : SearchResult) : Prop :=
  ∃ p txt, (p, txt) ∈ nodes ∧ p ≤ m.from_ ∧ m.to_ ≤ p + txt.length

/-- `setTextSelection({from, to})` followed by `insertContent(replaceTerm)`:
splice `repl` over the span `[f, t)` of the text. -/
def replaceSpan (text : List Char) (f t : Nat) (repl : List Char) : List Char :=
  text.take f ++ repl ++ text.drop t

/-- `[...results].sort((a, b) => b.from - a.from)`: sort the spans by
descending `from`. -/
def sortByFromDesc (results : List SearchResult) : List SearchResult :=
  List.insertionSort (fun a b => b.from_ ≤ a.from_) results

/-- The `sortedResults.forEach` body of `replaceAll`, folded over the text. -/
def applySpans (repl : List Char) (text : List Char) (spans : List SearchResult) : List Char :=
  spans.foldl (fun acc m => replaceSpan acc m.from_ m.to_ repl) text

/-- `replaceAll` (part_006): early-returns when there are no results,
otherwise replaces each match, highest `from` first. -/
def replaceAll (text : List Char) (results : List SearchResult) (repl : List Char) : List Char :=
  if results.isEmpty then text
  else applySpans repl text (sortByFromDesc results)

/-- Specification-side replace-all, written from the spec's words: replace
every occurrence of the literal pattern, scanning left to right. -/
def replaceAllNaiveAux (caseSensitive : Bool) (pat repl : List Char) : List Char → List Char
  | [] => []
  | c :: tl =>
    if matchesAt caseSensitive pat (c :: tl) then
      repl ++ replaceAllNaiveAux caseSensitive pat repl (tl.drop (pat.length - 1))
    else
      c :: replaceAllNaiveAux caseSensitive pat repl tl
termination_by t => t.length
decreasing_by
  all_goals simp [List.length_drop]
  omega

/-- Specification-side replace-all on a text with a (possibly empty)
literal pattern. -/
def replaceAllNaive (caseSensitive : Bool) (text pat repl : List Char) : List Char :=
  if pat.isEmpty then text else replaceAllNaiveAux caseSensitive pat repl text

/-- The find/replace dialog state the navigation handlers touch. -/
structure FindState where
  results : List SearchResult
  currentIndex : Nat
  selection : Option SearchResult
deriving DecidableEq, Repr

/-- `goToNext` (part_006): no-op when there are no results, else advance
`currentIndex` to `(currentIndex + 1) % results.length` and highlight
(select) that match. -/
def goToNext (st : FindState) : FindState :=
  if st.results.isEmpty then st
  else
    let nextIndex := (st.currentIndex + 1) % st.results.length
    { st with currentIndex := nextIndex, selection := some (st.results.getD nextIndex ⟨0, 0⟩) }

/-- `goToPrevious` (part_006): no-op when there are no results, else move
`currentIndex` to `(currentIndex - 1 + results.length) % results.length`
(JS arithmetic, hence computed in ℤ) and highlight that match. -/
def goToPrevious (st : FindState) : FindState :=
  if st.results.isEmpty then st
  else
    let prevIndex := (((st.currentIndex : ℤ) - 1 + st.results.length) % st.results.length).toNat
    { st with currentIndex := prevIndex, selection := some (st.results.getD prevIndex ⟨0, 0⟩) }

/-! ## Page-setup margin inputs (PageSetupDialog: part_002)

`onChange` stores `parseFloat(e.target.value) || 0`.  `jsParseFloatQ`
models the JS `parseFloat` builtin over exact rationals: skip leading
whitespace, optional sign, decimal digits with optional fraction and
optional exponent, longest valid prefix; `none` models `NaN` (no parsable
number; non-finite inputs such as `Infinity` are outside this model). -/

/-- JS `parseFloat` leading-whitespace characters (the common ones). -/
def isJsWhitespace (c : Char) : Bool :=
  c == ' ' || c == '\t' || c == '\n' || c == '\r'

/-- Numeric value of a digit string. -/
def digitsVal (ds : List Char) : Nat :=
  ds.foldl (fun acc c => acc * 10 + (c.toNat - 48)) 0

/-- The exponent part of a JS float literal: `e`/`E`, optional sign,
digits; ignored (exponent 0) unless at least one digit follows. -/
def jsParseExponent (s : List Char) : ℤ :=
  match s with
  | e :: r =>
    if e == 'e' || e == 'E' then
      match r with
      | '-' :: r2 =>
        let ed := r2.takeWhile Char.isDigit
        if ed.isEmpty then 0 else -(digitsVal ed : ℤ)
      | '+' :: r2 =>
        let ed := r2.takeWhile Char.isDigit
        if ed.isEmpty then 0 else (digitsVal ed : ℤ)
      | _ =>
        let ed := r.takeWhile Char.isDigit
        if ed.isEmpty then 0 else (digitsVal ed : ℤ)
    else 0
  | [] => 0

/-- Model of the JS `parseFloat` builtin restricted to finite results:
`none` stands for `NaN`. -/
def jsParseFloatQ (s : List Char) : Option ℚ :=
  let s1 := s.dropWhile isJsWhitespace
  let signAndRest : ℚ × List Char :=
    match s1 with
    | '-' :: r => (-1, r)
    | '+' :: r => (1, r)
    | _ => (1, s1)
  let s2 := signAndRest.2
  let ip := s2.takeWhile Char.isDigit
  let s3 := s2.dropWhile Char.isDigit
  let fracAndRest : List Char × List Char :=
    match s3 with
    | '.' :: r => (r.takeWhile Char.isDigit, r.dropWhile Char.isDigit)
    | _ => ([], s3)
  let fp := fracAndRest.1
  if ip.isEmpty ∧ fp.isEmpty then none
  else
    let mant : ℚ := (digitsVal ip : ℚ) + (digitsVal fp : ℚ) / (10 : ℚ) ^ fp.length
    some (signAndRest.1 * mant * (10 : ℚ) ^ jsParseExponent fracAndRest.2)

/-- A margin field's `onChange` (part_002): `parseFloat(value) || 0` — the
falsy values `NaN` (here `none`) and `0` both store `0`. -/
def marginInputValue (s : List Char) : ℚ :=
  match jsParseFloatQ s with
  | none => 0
  | some v => if v = 0 then 0 else v

/-! ## Helper lemmas: snapping and tab-stop list operations -/

theorem jsAbs_eq_abs (x : ℚ) : jsAbs x = |x| := by
  unfold jsAbs
  rcases lt_or_le x 0 with h | h
  · rw [if_pos h, abs_of_neg h]
  · rw [if_neg (not_lt.mpr h), abs_of_nonneg h]

theorem snapQuarter_isQuarterMultiple (x : ℚ) : isQuarterMultiple (snapQuarter x) :=
  ⟨jsRound (x * 4), rfl⟩

theorem snapQuarter_nonneg {x : ℚ} (h : 0 < x) : 0 ≤ snapQuarter x := by
  unfold snapQuarter jsRound
  have h1 : (0 : ℤ) ≤ ⌊x * 4 + 1/2⌋ := Int.le_floor.mpr (by push_cast; linarith)
  have h2 : (0 : ℚ) ≤ (⌊x * 4 + 1/2⌋ : ℚ) := by exact_mod_cast h1
  linarith

theorem snapQuarter_lt_add_eighth {x W : ℚ} (h : x < W) : snapQuarter x < W + 1/8 := by
  unfold snapQuarter jsRound
  have h1 : (⌊x * 4 + 1/2⌋ : ℚ) ≤ x * 4 + 1/2 := Int.floor_le _
  linarith

theorem snapQuarter_le_add_eighth {x W : ℚ} (h : x ≤ W) : snapQuarter x ≤ W + 1/8 := by
  unfold snapQuarter jsRound
  have h1 : (⌊x * 4 + 1/2⌋ : ℚ) ≤ x * 4 + 1/2 := Int.floor_le _
  linarith

theorem quarter_le_snapQuarter {x : ℚ} (h : 1/4 ≤ x) : 1/4 ≤ snapQuarter x := by
  unfold snapQuarter jsRound
  have h1 : (1 : ℤ) ≤ ⌊x * 4 + 1/2⌋ := Int.le_floor.mpr (by push_cast; linarith)
  have h2 : (1 : ℚ) ≤ (⌊x * 4 + 1/2⌋ : ℚ) := by exact_mod_cast h1
  linarith

theorem snapQuarter_le_intQuarter {x : ℚ} {n : ℤ} (h : x ≤ (n : ℚ) / 4) :
    snapQuarter x ≤ (n : ℚ) / 4 := by
  unfold snapQuarter jsRound
  have h1 : ⌊x * 4 + 1/2⌋ < n + 1 := by
    apply Int.floor_lt.mpr
    push_cast
    linarith
  have h2 : (⌊x * 4 + 1/2⌋ : ℚ) ≤ (n : ℚ) := by exact_mod_cast Int.lt_add_one_iff.mp h1
  linarith

theorem mem_handleTabStopAdd {stops : List ℚ} {v x : ℚ} :
    x ∈ handleTabStopAdd stops v ↔ x ∈ stops ∨ x = v := by
  unfold handleTabStopAdd
  rw [List.mem_insertionSort]
  simp

theorem nodup_handleTabStopAdd {stops : List ℚ} {v : ℚ} (h : stops.Nodup) (hv : v ∉ stops) :
    (handleTabStopAdd stops v).Nodup := by
  unfold handleTabStopAdd
  rw [(List.perm_insertionSort _ _).nodup_iff]
  simp [List.nodup_append, h, hv]

theorem mem_handleTabStopRemove {stops : List ℚ} {p t : ℚ} :
    t ∈ handleTabStopRemove stops p ↔ t ∈ stops ∧ 1/20 < |t - p| := by
  unfold handleTabStopRemove
  simp [List.mem_filter, jsAbs_eq_abs]

theorem handleRulerClick_in_band {pageWidth leftMargin rightMargin zoom clickX : ℚ}
    (stops : List ℚ)
    (h1 : 0 < pxToInches clickX zoom - leftMargin)
    (h2 : pxToInches clickX zoom - leftMargin < pageWidth - leftMargin - rightMargin) :
    handleRulerClick false pageWidth leftMargin rightMargin zoom stops clickX
      = handleTabStopAdd stops (snapQuarter (pxToInches clickX zoom - leftMargin)) := by
  simp [handleRulerClick, h1, h2]

/-! ## C5: pixel/inch conversion round trip -/

/-- C5: for all `v ∈ [0, pageWidth]` and `zoom ∈ [50, 200]`, converting
inches to pixels and back is the identity over exact rational arithmetic:
`pxToInches (inchesToPx v zoom) zoom = v`. -/
theorem C5_px_inch_roundtrip (pageWidth v zoom : ℚ) (h0 : 0 ≤ v) (h1 : v ≤ pageWidth)
    (h2 : 50 ≤ zoom) (h3 : zoom ≤ 200) :
    pxToInches (inchesToPx v zoom) zoom = v := by
  unfold pxToInches inchesToPx
  have hz : zoom ≠ 0 := by intro hz0; rw [hz0] at h2; norm_num at h2
  field_simp
  ring

/-- C5 witness: the round trip at `v = 3`, `pageWidth = 8.5`, `zoom = 150`. -/
theorem C5_witness : pxToInches (inchesToPx 3 150) 150 = 3 :=
  C5_px_inch_roundtrip (17/2) 3 150 (by norm_num) (by norm_num) (by norm_num) (by norm_num)

/-! ## C2: tab stops and the content band -/

/-- C2 counterexample: the band check precedes snapping, so the stored
value can escape the open band.  With `pageWidth = 8.5`, margins `1`/`1`, a
click at `0.1in` into the band (clickX `105.6px` at zoom 100) stores the
tab stop `0`, which is not strictly positive; and with margins `1`/`1.3`
(band `6.2in`), a click at `6.15in` stores `6.25`, which is beyond the
band's upper end. -/
theorem C2_counterexample :
    (handleRulerClick false (17/2) 1 1 100 [] (528/5) = [0] ∧ ¬ ((0:ℚ) < 0)) ∧
    (handleRulerClick false (17/2) 1 (13/10) 100 [] (3432/5) = [25/4] ∧
      ¬ ((25/4 : ℚ) < 17/2 - 1 - 13/10)) := by
  refine ⟨⟨?_, by norm_num⟩, ?_, by norm_num⟩
  · norm_num [handleRulerClick, pxToInches, snapQuarter, jsRound, handleTabStopAdd,
      List.insertionSort, List.orderedInsert]
  · norm_num [handleRulerClick, pxToInches, snapQuarter, jsRound, handleTabStopAdd,
      List.insertionSort, List.orderedInsert]

/-- C2 (amended): a handled ruler click adds a snapped tab stop lying in
the closed-below, slightly widened band `[0, pageWidth - leftMargin -
rightMargin + 1/8)`: snapping the checked click position can land on `0`
or overshoot the band's upper end by less than an eighth inch, so strict
containment in the open band fails but this bound holds. -/
theorem C2_tab_stops_in_band (pageWidth leftMargin rightMargin zoom : ℚ)
    (stops : List ℚ) (clickX : ℚ)
    (h1 : 0 < pxToInches clickX zoom - leftMargin)
    (h2 : pxToInches clickX zoom - leftMargin < pageWidth - leftMargin - rightMargin) :
    ∀ x ∈ handleRulerClick false pageWidth leftMargin rightMargin zoom stops clickX,
      x ∈ stops ∨ (0 ≤ x ∧ x < pageWidth - leftMargin - rightMargin + 1/8) := by
  intro x hx
  rw [handleRulerClick_in_band stops h1 h2] at hx
  rcases mem_handleTabStopAdd.mp hx with h | rfl
  · exact Or.inl h
  · exact Or.inr ⟨snapQuarter_nonneg h1, snapQuarter_lt_add_eighth h2⟩

/-- C2 witness: the amended bound at a click storing the tab stop `1`. -/
theorem C2_witness :
    (1:ℚ) ∈ ([] : List ℚ) ∨ (0 ≤ (1:ℚ) ∧ (1:ℚ) < 17/2 - 1 - 1 + 1/8) := by
  apply C2_tab_stops_in_band (17/2) 1 1 100 [] 192
  · norm_num [pxToInches]
  · norm_num [pxToInches]
  · norm_num [handleRulerClick, pxToInches, snapQuarter, jsRound, handleTabStopAdd,
      List.insertionSort, List.orderedInsert]

/-! ## C3: duplicate tab stops -/

/-- C3 counterexample: `handleTabStopAdd` appends unconditionally, so a
handled click whose snapped position equals an existing stop duplicates
it: starting from the duplicate-free list `[1]`, a click at `2in` from the
ruler origin (one inch into the band, snapping to the existing stop `1`)
yields `[1, 1]`. -/
theorem C3_counterexample :
    ([1] : List ℚ).Nodup ∧
    handleRulerClick false (17/2) 1 1 100 [1] 192 = [1, 1] ∧
    ¬ ([1, 1] : List ℚ).Nodup := by
  refine ⟨by simp, ?_, by simp⟩
  norm_num [handleRulerClick, pxToInches, snapQuarter, jsRound, handleTabStopAdd,
    List.insertionSort, List.orderedInsert]

/-- C3 (amended): a click-add and a drag-move keep the tab-stop list
duplicate-free provided the snapped value being inserted is not already
present (in the drag case: not present among the stops remaining after the
old value's removal); without that proviso the handlers can duplicate a
stop, as the counterexample shows. -/
theorem C3_no_duplicate_tab_stops :
    (∀ (pageWidth leftMargin rightMargin zoom : ℚ) (stops : List ℚ) (clickX : ℚ),
      stops.Nodup →
      snapQuarter (pxToInches clickX zoom - leftMargin) ∉ stops →
      (handleRulerClick false pageWidth leftMargin rightMargin zoom stops clickX).Nodup) ∧
    (∀ (pageWidth leftMargin rightMargin zoom : ℚ) (stops : List ℚ) (i : Nat) (mouseX : ℚ),
      stops.Nodup →
      snapQuarter (pxToInches mouseX zoom - leftMargin)
        ∉ handleTabStopRemove stops (stops.getD i 0) →
      (handleMouseMoveTab pageWidth leftMargin rightMargin zoom stops i mouseX).Nodup) := by
  constructor
  · intro pageWidth leftMargin rightMargin zoom stops clickX hnd hmem
    simp only [handleRulerClick, Bool.false_eq_true, if_false]
    split
    · exact nodup_handleTabStopAdd hnd hmem
    · exact hnd
  · intro pageWidth leftMargin rightMargin zoom stops i mouseX hnd hmem
    simp only [handleMouseMoveTab]
    split
    · exact nodup_handleTabStopAdd (List.Nodup.filter _ hnd) hmem
    · exact hnd

/-- C3 witness: a handled click adding the fresh snapped stop `2` to `[1]`
keeps the list duplicate-free. -/
theorem C3_witness : (handleRulerClick false (17/2) 1 1 100 [1] 288).Nodup := by
  apply C3_no_duplicate_tab_stops.1 (17/2) 1 1 100 [1] 288 (by simp)
  norm_num [snapQuarter, jsRound, pxToInches]

/-! ## C4: margin-drag clamping -/

/-- C4 counterexample: with `rightMargin = 1.3` (off the 0.25in grid,
reachable through the page-setup dialog), dragging the left margin to
`8in` clamps to the bound `6.2` but snapping stores `6.25`, outside the
claimed interval `[0.25, pageWidth - rightMargin - 1]` and violating
`leftMargin + rightMargin < pageWidth - 1`; and even on the grid
(`rightMargin = 1`) the clamp attains its upper bound, giving
`leftMargin + rightMargin = pageWidth - 1`, so the strict inequality fails
there too. -/
theorem C4_counterexample :
    (handleMouseMoveLeft (17/2) 1 (13/10) 100 768 = (25/4, 13/10) ∧
      ¬ ((25/4 : ℚ) ≤ 17/2 - 13/10 - 1) ∧ ¬ ((25/4 : ℚ) + 13/10 < 17/2 - 1)) ∧
    (handleMouseMoveLeft (17/2) 1 1 100 768 = (13/2, 1) ∧
      ¬ ((13/2 : ℚ) + 1 < 17/2 - 1)) := by
  refine ⟨⟨?_, by norm_num, by norm_num⟩, ?_, by norm_num⟩
  · norm_num [handleMouseMoveLeft, pxToInches, snapQuarter, jsRound]
  · norm_num [handleMouseMoveLeft, pxToInches, snapQuarter, jsRound]

/-- C4 (amended): when the band is wide enough (`0.25 ≤ pageWidth -
rightMargin - 1`) a left-margin drag stores a 0.25in-multiple left margin
in `[0.25, pageWidth - rightMargin - 1 + 1/8]`, leaving the right margin
unchanged; when `pageWidth` and `rightMargin` are themselves 0.25in
multiples the snap cannot overshoot and `leftMargin + rightMargin ≤
pageWidth - 1` (non-strict: the clamp attains its bound).  The symmetric
statement holds for right-margin drags. -/
theorem C4_margin_drag_clamped :
    (∀ (pageWidth leftMargin rightMargin zoom mouseX : ℚ),
      1/4 ≤ pageWidth - rightMargin - 1 →
      (handleMouseMoveLeft pageWidth leftMargin rightMargin zoom mouseX).2 = rightMargin ∧
      isQuarterMultiple (handleMouseMoveLeft pageWidth leftMargin rightMargin zoom mouseX).1 ∧
      1/4 ≤ (handleMouseMoveLeft pageWidth leftMargin rightMargin zoom mouseX).1 ∧
      (handleMouseMoveLeft pageWidth leftMargin rightMargin zoom mouseX).1
        ≤ pageWidth - rightMargin - 1 + 1/8 ∧
      (isQuarterMultiple pageWidth → isQuarterMultiple rightMargin →
        (handleMouseMoveLeft pageWidth leftMargin rightMargin zoom mouseX).1 + rightMargin
          ≤ pageWidth - 1)) ∧
    (∀ (pageWidth leftMargin rightMargin zoom mouseX : ℚ),
      1/4 ≤ pageWidth - leftMargin - 1 →
      (handleMouseMoveRight pageWidth leftMargin rightMargin zoom mouseX).1 = leftMargin ∧
      isQuarterMultiple (handleMouseMoveRight pageWidth leftMargin rightMargin zoom mouseX).2 ∧
      1/4 ≤ (handleMouseMoveRight pageWidth leftMargin rightMargin zoom mouseX).2 ∧
      (handleMouseMoveRight pageWidth leftMargin rightMargin zoom mouseX).2
        ≤ pageWidth - leftMargin - 1 + 1/8 ∧
      (isQuarterMultiple pageWidth → isQuarterMultiple leftMargin →
        leftMargin + (handleMouseMoveRight pageWidth leftMargin rightMargin zoom mouseX).2
          ≤ pageWidth - 1)) := by
  constructor
  · intro pageWidth leftMargin rightMargin zoom mouseX hB
    have hres : (handleMouseMoveLeft pageWidth leftMargin rightMargin zoom mouseX).1
        = snapQuarter (max (1/4) (min (pageWidth - rightMargin - 1) (pxToInches mouseX zoom))) :=
      rfl
    set c := max (1/4) (min (pageWidth - rightMargin - 1) (pxToInches mouseX zoom)) with hc
    have hc1 : 1/4 ≤ c := le_max_left _ _
    have hc2 : c ≤ pageWidth - rightMargin - 1 := max_le hB (min_le_left _ _)
    refine ⟨rfl, ?_, ?_, ?_, ?_⟩
    · rw [hres]; exact snapQuarter_isQuarterMultiple c
    · rw [hres]; exact quarter_le_snapQuarter hc1
    · rw [hres]; exact snapQuarter_le_add_eighth hc2
    · rintro ⟨a, ha⟩ ⟨b, hb⟩
      rw [hres]
      have hn : pageWidth - rightMargin - 1 = ((a - b - 4 : ℤ) : ℚ) / 4 := by
        push_cast
        rw [ha, hb]
        ring
      have h3 : c ≤ ((a - b - 4 : ℤ) : ℚ) / 4 := by rw [← hn]; exact hc2
      have h4 := snapQuarter_le_intQuarter h3
      rw [← hn] at h4
      linarith
  · intro pageWidth leftMargin rightMargin zoom mouseX hB
    have hres : (handleMouseMoveRight pageWidth leftMargin rightMargin zoom mouseX).2
        = snapQuarter (max (1/4) (min (pageWidth - leftMargin - 1)
            (pageWidth - pxToInches mouseX zoom))) :=
      rfl
    set c := max (1/4) (min (pageWidth - leftMargin - 1) (pageWidth - pxToInches mouseX zoom))
      with hc
    have hc1 : 1/4 ≤ c := le_max_left _ _
    have hc2 : c ≤ pageWidth - leftMargin - 1 := max_le hB (min_le_left _ _)
    refine ⟨rfl, ?_, ?_, ?_, ?_⟩
    · rw [hres]; exact snapQuarter_isQuarterMultiple c
    · rw [hres]; exact quarter_le_snapQuarter hc1
    · rw [hres]; exact snapQuarter_le_add_eighth hc2
    · rintro ⟨a, ha⟩ ⟨b, hb⟩
      rw [hres]
      have hn : pageWidth - leftMargin - 1 = ((a - b - 4 : ℤ) : ℚ) / 4 := by
        push_cast
        rw [ha, hb]
        ring
      have h3 : c ≤ ((a - b - 4 : ℤ) : ℚ) / 4 := by rw [← hn]; exact hc2
      have h4 := snapQuarter_le_intQuarter h3
      rw [← hn] at h4
      linarith

/-- C4 witness: on the 0.25in grid (`pageWidth = 8.5`, `rightMargin = 1`)
a far-right left-margin drag still satisfies
`leftMargin + rightMargin ≤ pageWidth - 1`. -/
theorem C4_witness : (handleMouseMoveLeft (17/2) 1 1 100 768).1 + 1 ≤ 17/2 - 1 :=
  (C4_margin_drag_clamped.1 (17/2) 1 1 100 768 (by norm_num)).2.2.2.2
    ⟨34, by norm_num⟩ ⟨4, by norm_num⟩

/-! ## C6: snapping to the quarter-inch grid -/

/-- C6: every tab stop added by a handled ruler click is an integer
multiple of 0.25in; `snapQuarter 1.38 = 1.5`, and the click whose band
position is `1.38in` (clickX `228.48px`, left margin 1, zoom 100) stores
the tab stop `1.5`. -/
theorem C6_snap_to_quarter :
    (∀ (pageWidth leftMargin rightMargin zoom : ℚ) (stops : List ℚ) (clickX : ℚ),
      0 < pxToInches clickX zoom - leftMargin →
      pxToInches clickX zoom - leftMargin < pageWidth - leftMargin - rightMargin →
      ∀ x ∈ handleRulerClick false pageWidth leftMargin rightMargin zoom stops clickX,
        x ∈ stops ∨ isQuarterMultiple x) ∧
    snapQuarter (138/100) = 3/2 ∧
    handleRulerClick false (17/2) 1 1 100 [] (5712/25) = [3/2] := by
  refine ⟨?_, ?_, ?_⟩
  · intro pageWidth leftMargin rightMargin zoom stops clickX h1 h2 x hx
    rw [handleRulerClick_in_band stops h1 h2] at hx
    rcases mem_handleTabStopAdd.mp hx with h | rfl
    · exact Or.inl h
    · exact Or.inr (snapQuarter_isQuarterMultiple _)
  · norm_num [snapQuarter, jsRound]
  · norm_num [handleRulerClick, pxToInches, snapQuarter, jsRound, handleTabStopAdd,
      List.insertionSort, List.orderedInsert]

/-- C6 witness: the stored stop `1.5` of the `1.38in` click is on the grid. -/
theorem C6_witness : (3/2 : ℚ) ∈ ([] : List ℚ) ∨ isQuarterMultiple (3/2 : ℚ) := by
  apply C6_snap_to_quarter.1 (17/2) 1 1 100 [] (5712/25)
  · norm_num [pxToInches]
  · norm_num [pxToInches]
  · rw [C6_snap_to_quarter.2.2]
    simp

/-! ## C8: double-click tab-stop removal -/

/-- C8: `handleTabStopRemove` deletes precisely the stops within 0.05in of
the removal position; when the stops are pairwise at least 0.25in apart
and the position is within 0.05in of a stop `s`, exactly `s` is removed
(every stop survives iff it differs from `s`); and concretely, adding a
stop at `2.0` to `[1, 2.5]` and double-clicking it leaves `[1, 2.5]`. -/
theorem C8_double_click_removal :
    (∀ (stops : List ℚ) (p t : ℚ),
      t ∈ handleTabStopRemove stops p ↔ t ∈ stops ∧ ¬ (|t - p| ≤ 1/20)) ∧
    (∀ (stops : List ℚ) (s p : ℚ),
      stops.Pairwise (fun a b => 1/4 ≤ |a - b|) → s ∈ stops → |p - s| ≤ 1/20 →
      ∀ t ∈ stops, (t ∈ handleTabStopRemove stops p ↔ t ≠ s)) ∧
    handleTabDoubleClick (handleTabStopAdd [1, 5/2] 2) 1 = [1, 5/2] := by
  refine ⟨?_, ?_, ?_⟩
  · intro stops p t
    rw [mem_handleTabStopRemove, not_le]
  · intro stops s p hpw hs hp t ht
    rw [mem_handleTabStopRemove]
    constructor
    · rintro ⟨-, habs⟩ rfl
      rw [abs_sub_comm] at hp
      linarith
    · intro hne
      refine ⟨ht, ?_⟩
      have hsym : Symmetric (fun a b : ℚ => 1/4 ≤ |a - b|) := by
        intro a b h
        rwa [abs_sub_comm]
      have hsep : 1/4 ≤ |t - s| := hpw.forall hsym ht hs hne
      have htri : |t - s| ≤ |t - p| + |p - s| := abs_sub_le t p s
      linarith
  · norm_num [handleTabDoubleClick, handleTabStopAdd, handleTabStopRemove, jsAbs,
      List.insertionSort, List.orderedInsert, List.filter]

/-- C8 witness: in `[1, 2, 2.5]` (stops ≥ 0.25in apart), removal at `2`
keeps a stop iff it is not `2`, instantiated at the stop `1`. -/
theorem C8_witness : (1:ℚ) ∈ handleTabStopRemove [1, 2, 5/2] 2 ↔ (1:ℚ) ≠ 2 := by
  apply C8_double_click_removal.2.1 [1, 2, 5/2] 2 2 ?_ (by norm_num) (by norm_num) 1 (by norm_num)
  norm_num [List.pairwise_cons, abs_of_nonneg]

/-! ## C7: cyclic match navigation -/

/-- C7: on an empty match list `goToNext`/`goToPrevious` are no-ops (state,
hence index and selection, unchanged); on a non-empty list they set
`currentIndex` to `(i + 1) % n` resp. `(i - 1 + n) % n` (JS integer
arithmetic, stated over ℤ), both valid indices; with 3 matches and
`currentIndex = 2`, `goToNext` yields `currentIndex = 0`. -/
theorem C7_cyclic_navigation :
    (∀ st : FindState, st.results = [] → goToNext st = st ∧ goToPrevious st = st) ∧
    (∀ st : FindState, st.results ≠ [] →
      (goToNext st).currentIndex = (st.currentIndex + 1) % st.results.length ∧
      ((goToPrevious st).currentIndex : ℤ)
        = ((st.currentIndex : ℤ) - 1 + st.results.length) % st.results.length ∧
      (goToNext st).currentIndex < st.results.length ∧
      (goToPrevious st).currentIndex < st.results.length) ∧
    (∀ st : FindState, st.results.length = 3 → st.currentIndex = 2 →
      (goToNext st).currentIndex = 0) := by
  have hblock : ∀ st : FindState, st.results ≠ [] →
      (goToNext st).currentIndex = (st.currentIndex + 1) % st.results.length ∧
      ((goToPrevious st).currentIndex : ℤ)
        = ((st.currentIndex : ℤ) - 1 + st.results.length) % st.results.length ∧
      (goToNext st).currentIndex < st.results.length ∧
      (goToPrevious st).currentIndex < st.results.length := by
    intro st h
    have hne : st.results.isEmpty = false := by
      simpa [List.isEmpty_iff] using h
    have hlen : 0 < st.results.length := List.length_pos.mpr h
    have hlenz : (0 : ℤ) < (st.results.length : ℤ) := by exact_mod_cast hlen
    have hmodnn : (0 : ℤ) ≤ ((st.currentIndex : ℤ) - 1 + st.results.length)
        % st.results.length :=
      Int.emod_nonneg _ (by omega)
    have hmodlt : ((st.currentIndex : ℤ) - 1 + st.results.length) % st.results.length
        < st.results.length :=
      Int.emod_lt_of_pos _ hlenz
    refine ⟨?_, ?_, ?_, ?_⟩
    · simp [goToNext, hne]
    · simp only [goToPrevious, hne, Bool.false_eq_true, if_false]
      omega
    · simp only [goToNext, hne, Bool.false_eq_true, if_false]
      exact Nat.mod_lt _ hlen
    · simp only [goToPrevious, hne, Bool.false_eq_true, if_false]
      omega
  refine ⟨?_, hblock, ?_⟩
  · intro st h
    have hne : st.results.isEmpty = true := by simp [List.isEmpty_iff, h]
    constructor <;> simp [goToNext, goToPrevious, hne]
  · intro st h3 h2
    have h : st.results ≠ [] := by
      intro hnil
      rw [hnil] at h3
      simp at h3
    rw [(hblock st h).1, h2, h3]

/-- C7 witness: with the three matches of `"cat cat cat"` and
`currentIndex = 2`, `goToNext` wraps to index 0. -/
theorem C7_witness :
    (goToNext ⟨[⟨0, 3⟩, ⟨4, 7⟩, ⟨8, 11⟩], 2, none⟩).currentIndex = 0 :=
  C7_cyclic_navigation.2.2 ⟨[⟨0, 3⟩, ⟨4, 7⟩, ⟨8, 11⟩], 2, none⟩ rfl rfl

/-! ## C9: margin-field numeric fallback -/

/-- C9: a page-setup margin input whose text does not parse as a number
(`parseFloat` returns `NaN`, modelled as `none`) stores `0`; in
particular the empty string and `"abc"` do not parse. -/
theorem C9_margin_parse_fallback :
    (∀ s : List Char, jsParseFloatQ s = none → marginInputValue s = 0) ∧
    jsParseFloatQ [] = none ∧
    jsParseFloatQ ("abc".toList) = none := by
  refine ⟨?_, ?_, ?_⟩
  · intro s h
    unfold marginInputValue
    rw [h]
  · rfl
  · rfl

/-- C9 witness: the stored margin for the non-numeric input `"abc"` is 0. -/
theorem C9_witness : marginInputValue ("abc".toList) = 0 :=
  C9_margin_parse_fallback.1 ("abc".toList) rfl

/-! ## Helper lemmas: the match scanner and descending-order replacement -/

theorem matchesAt_length_le {cs : Bool} {pat text : List Char}
    (h : matchesAt cs pat text = true) : pat.length ≤ text.length := by
  unfold matchesAt at h
  have := (List.isPrefixOf_iff_prefix.mp h).length_le
  simpa using this

theorem findAux_bounds {cs : Bool} {pat : List Char} :
    ∀ (text : List Char) (skip : Nat), ∀ m ∈ findAux cs pat text skip,
      m.from_ ≤ m.to_ ∧ m.to_ ≤ text.length := by
  intro text
  induction text with
  | nil =>
    intro skip m hm
    simp [findAux] at hm
  | cons c tl ih =>
    intro skip m hm
    cases skip with
    | succ sk =>
      simp only [findAux, List.mem_map] at hm
      obtain ⟨m0, hm0, rfl⟩ := hm
      have := ih sk m0 hm0
      simp only [shiftSpan, List.length_cons]
      omega
    | zero =>
      simp only [findAux] at hm
      by_cases hmatch : matchesAt cs pat (c :: tl)
      · rw [if_pos hmatch] at hm
        rcases List.mem_cons.mp hm with rfl | hm'
        · exact ⟨Nat.zero_le _, matchesAt_length_le hmatch⟩
        · obtain ⟨m0, hm0, rfl⟩ := List.mem_map.mp hm'
          have := ih (pat.length - 1) m0 hm0
          simp only [shiftSpan, List.length_cons]
          omega
      · rw [if_neg hmatch] at hm
        obtain ⟨m0, hm0, rfl⟩ := List.mem_map.mp hm
        have := ih 0 m0 hm0
        simp only [shiftSpan, List.length_cons]
        omega

theorem replaceAll_eq_applySpans (text repl : List Char) (results : List SearchResult) :
    replaceAll text results repl = applySpans repl text (sortByFromDesc results) := by
  cases results with
  | nil => rfl
  | cons a l => rfl

theorem applySpans_append (repl text : List Char) (l : List SearchResult) (m : SearchResult) :
    applySpans repl text (l ++ [m]) = replaceSpan (applySpans repl text l) m.from_ m.to_ repl := by
  unfold applySpans
  rw [List.foldl_append]
  rfl

theorem take_append_add {α : Type} (P X : List α) (f : Nat) :
    (P ++ X).take (f + P.length) = P ++ X.take f := by
  rw [Nat.add_comm f P.length, List.take_add, List.take_left, List.drop_left]

theorem drop_append_add {α : Type} (P X : List α) (t : Nat) :
    (P ++ X).drop (t + P.length) = X.drop t := by
  induction P with
  | nil => simp
  | cons p P ih =>
    simp only [List.length_cons, List.cons_append, Nat.add_succ, List.drop_succ_cons]
    exact ih

theorem replaceSpan_append_left (P X repl : List Char) (f t : Nat) :
    replaceSpan (P ++ X) (f + P.length) (t + P.length) repl = P ++ replaceSpan X f t repl := by
  unfold replaceSpan
  rw [take_append_add, drop_append_add]
  simp [List.append_assoc]

theorem applySpans_map_shift (repl : List Char) (S : List SearchResult) :
    ∀ (P X : List Char),
      applySpans repl (P ++ X) (S.map (shiftSpan P.length)) = P ++ applySpans repl X S := by
  induction S with
  | nil => intro P X; rfl
  | cons s S ih =>
    intro P X
    simp only [List.map_cons]
    show applySpans repl
        (replaceSpan (P ++ X) (s.from_ + P.length) (s.to_ + P.length) repl)
        (S.map (shiftSpan P.length))
      = P ++ applySpans repl (replaceSpan X s.from_ s.to_ repl) S
    rw [replaceSpan_append_left]
    exact ih P _

theorem orderedInsert_append_of_forall_not {α : Type} (r : α → α → Prop) [DecidableRel r]
    (a : α) (l : List α) (h : ∀ x ∈ l, ¬ r a x) :
    List.orderedInsert r a l = l ++ [a] := by
  induction l with
  | nil => rfl
  | cons b l ih =>
    rw [List.orderedInsert, if_neg (h b (List.mem_cons_self b l))]
    rw [ih (fun x hx => h x (List.mem_cons_of_mem b hx))]
    rfl

theorem sortByFromDesc_cons_least (m : SearchResult) (l : List SearchResult)
    (h : ∀ x ∈ l, m.from_ < x.from_) :
    sortByFromDesc (m :: l) = sortByFromDesc l ++ [m] := by
  unfold sortByFromDesc
  rw [List.insertionSort]
  apply orderedInsert_append_of_forall_not
  intro x hx
  have hxl := (List.mem_insertionSort _).mp hx
  have := h x hxl
  simp only [not_le]
  omega

theorem sortByFromDesc_map_shift (k : Nat) (l : List SearchResult) :
    sortByFromDesc (l.map (shiftSpan k)) = (sortByFromDesc l).map (shiftSpan k) := by
  unfold sortByFromDesc
  refine (List.map_insertionSort _ _ (shiftSpan k) l ?_).symm
  intro a ha b hb
  simp only [shiftSpan]
  omega

theorem applySpans_findAux (cs : Bool) (pat repl : List Char) (hpat : pat ≠ []) :
    ∀ (n : Nat) (text : List Char), text.length ≤ n → ∀ skip : Nat,
      applySpans repl text (sortByFromDesc (findAux cs pat text skip))
        = text.take skip ++ replaceAllNaiveAux cs pat repl (text.drop skip) := by
  intro n
  induction n with
  | zero =>
    intro text hlen skip
    have htext : text = [] := List.length_eq_zero.mp (Nat.le_zero.mp hlen)
    subst htext
    simp [findAux, sortByFromDesc, applySpans, replaceAllNaiveAux]
  | succ n ih =>
    intro text hlen skip
    cases text with
    | nil => simp [findAux, sortByFromDesc, applySpans, replaceAllNaiveAux]
    | cons c tl =>
      have htl : tl.length ≤ n := by
        simp only [List.length_cons] at hlen
        omega
      cases skip with
      | succ sk =>
        show applySpans repl (c :: tl)
            (sortByFromDesc ((findAux cs pat tl sk).map (shiftSpan 1)))
          = (c :: tl).take (sk + 1) ++ replaceAllNaiveAux cs pat repl ((c :: tl).drop (sk + 1))
        rw [sortByFromDesc_map_shift]
        have h1 := applySpans_map_shift repl (sortByFromDesc (findAux cs pat tl sk)) [c] tl
        simp only [List.singleton_append, List.length_singleton] at h1
        rw [h1, ih tl htl sk, List.take_succ_cons, List.drop_succ_cons]
        simp [List.cons_append]
      | zero =>
        by_cases hm : matchesAt cs pat (c :: tl)
        · have hL1 : 1 ≤ pat.length := by
            cases pat with
            | nil => exact absurd rfl hpat
            | cons _ _ => simp
          have hLle : pat.length ≤ tl.length + 1 := by
            simpa using matchesAt_length_le hm
          obtain ⟨L1, hL⟩ : ∃ L1, pat.length = L1 + 1 := ⟨pat.length - 1, by omega⟩
          have hL1le : L1 ≤ tl.length := by omega
          have hnaive : replaceAllNaiveAux cs pat repl (c :: tl)
              = repl ++ replaceAllNaiveAux cs pat repl (tl.drop L1) := by
            rw [replaceAllNaiveAux, if_pos hm, hL]
            simp only [Nat.add_sub_cancel]
          simp only [findAux]
          rw [if_pos hm, hL]
          simp only [Nat.add_sub_cancel]
          rw [sortByFromDesc_cons_least _ _ ?hlt]
          case hlt =>
            intro x hx
            obtain ⟨m0, hm0, rfl⟩ := List.mem_map.mp hx
            simp [shiftSpan]
          rw [sortByFromDesc_map_shift, applySpans_append]
          have h1 := applySpans_map_shift repl
            (sortByFromDesc (findAux cs pat tl L1)) [c] tl
          simp only [List.singleton_append, List.length_singleton] at h1
          rw [h1, ih tl htl L1]
          simp only [List.take_zero, List.drop_zero, List.nil_append, hnaive]
          unfold replaceSpan
          simp only [List.take_zero, List.nil_append]
          congr 1
          rw [List.drop_succ_cons]
          have hlen' : (tl.take L1).length = L1 := by
            rw [List.length_take]
            omega
          calc List.drop L1 (tl.take L1 ++ replaceAllNaiveAux cs pat repl (tl.drop L1))
              = List.drop (tl.take L1).length
                  (tl.take L1 ++ replaceAllNaiveAux cs pat repl (tl.drop L1)) := by rw [hlen']
            _ = replaceAllNaiveAux cs pat repl (tl.drop L1) := List.drop_left _ _
        · have hnaive : replaceAllNaiveAux cs pat repl (c :: tl)
              = c :: replaceAllNaiveAux cs pat repl tl := by
            rw [replaceAllNaiveAux, if_neg hm]
          simp only [findAux]
          rw [if_neg hm]
          rw [sortByFromDesc_map_shift]
          have h1 := applySpans_map_shift repl (sortByFromDesc (findAux cs pat tl 0)) [c] tl
          simp only [List.singleton_append, List.length_singleton] at h1
          rw [h1, ih tl htl 0]
          simp [hnaive]

/-! ## C1: replaceAll over the current match list -/

/-- C1: `replaceAll` processes the match spans in descending `from` order
(the `sortByFromDesc` in its definition) and this replaces every current
match: when the match list is exactly the scanner's output for a literal
pattern, the result agrees with the specification-side left-to-right
replace-all; on `"cat cat cat"` with pattern `"cat"` and replacement
`"dog"` it yields `"dog dog dog"`; and on an empty match list it is a
no-op. -/
theorem C1_replaceAll_descending :
    (∀ (cs : Bool) (text pat repl : List Char), pat ≠ [] →
      replaceAll text (findMatchesNode cs text pat) repl
        = replaceAllNaive cs text pat repl) ∧
    (∀ text repl : List Char, replaceAll text [] repl = text) ∧
    replaceAll ("cat cat cat".toList)
      (findMatchesNode false ("cat cat cat".toList) ("cat".toList)) ("dog".toList)
      = "dog dog dog".toList := by
  refine ⟨?_, ?_, ?_⟩
  · intro cs text pat repl hpat
    have hne : pat.isEmpty = false := by
      simpa [List.isEmpty_iff] using hpat
    unfold findMatchesNode replaceAllNaive
    rw [hne]
    simp only [Bool.false_eq_true, if_false]
    rw [replaceAll_eq_applySpans]
    have h := applySpans_findAux cs pat repl hpat text.length text le_rfl 0
    simpa using h
  · intro text repl
    rfl
  · decide

/-- C1 witness: the general equivalence applied to text `"ab"`, pattern
`"a"`, replacement `"c"`. -/
theorem C1_witness :
    replaceAll ("ab".toList) (findMatchesNode false ("ab".toList) ("a".toList)) ("c".toList)
      = replaceAllNaive false ("ab".toList) ("a".toList) ("c".toList) :=
  C1_replaceAll_descending.1 false ("ab".toList) ("a".toList) ("c".toList) (by decide)

/-! ## C10: matches never span text-node boundaries -/

/-- C10: every span the scanner reports lies entirely within a single text
node (the scan is per node); concretely, with `"cat"` split across the
adjacent nodes `"ca"` and `"t"` no match is reported, although the same
scanner finds `"cat"` in the concatenated text. -/
theorem C10_matches_within_node :
    (∀ (cs : Bool) (nodes : List (Nat × List Char)) (pat : List Char),
      ∀ m ∈ docFindMatches cs nodes pat, spanInSomeNode nodes m) ∧
    docFindMatches false [(1, "ca".toList), (3, "t".toList)] ("cat".toList) = [] ∧
    findMatchesNode false ("ca".toList ++ "t".toList) ("cat".toList) = [⟨0, 3⟩] := by
  refine ⟨?_, by decide, by decide⟩
  intro cs nodes pat m hm
  unfold docFindMatches at hm
  by_cases hp : pat.isEmpty
  · rw [if_pos hp] at hm
    simp at hm
  · rw [if_neg hp] at hm
    rw [List.mem_flatten] at hm
    obtain ⟨l, hl, hml⟩ := hm
    rw [List.mem_map] at hl
    obtain ⟨nd, hnd, rfl⟩ := hl
    rw [List.mem_map] at hml
    obtain ⟨m0, hm0, rfl⟩ := hml
    have hb := findAux_bounds nd.2 0 m0 hm0
    refine ⟨nd.1, nd.2, by simpa using hnd, ?_, ?_⟩
    · simp only [shiftSpan]
      omega
    · simp only [shiftSpan]
      omega

/-- C10 witness: the single match of `"cat"` in the one-node document
`[(0, "cat")]` lies within that node. -/
theorem C10_witness : spanInSomeNode [(0, "cat".toList)] ⟨0, 3⟩ :=
  C10_matches_within_node.1 false [(0, "cat".toList)] ("cat".toList) ⟨0, 3⟩ (by decide)

end TextEditor
